import Mathlib

/-!
# Shallow embedding of the `doctoryes/sudoku_solver` repository

This file embeds the data model and operations of the repository's Python 2
sources (`src/sudoku/cell.py`, `src/sudoku/block.py`, `src/sudoku/board.py`,
`src/solver.py`) as executable Lean definitions, and settles the frozen claims
about them.

Modelling conventions:
- A Python number is `Option Nat` (`none` is Python's `None`).
- A cell's `possibles` field is `Option (List Nat)`: Python code stores either
  a list or `None` there.
- Mutation is modelled by explicit state passing; generators by lists.
- The source's unbounded recursions (`solve_board`, `analyze`'s
  `while set_obvious()` loop) are modelled with an explicit fuel parameter;
  running out of fuel returns the failure/identity result, which no modelled
  flow reaches for the inputs used in the theorems below.
- `Counter.iteritems()` iterates a Python hash dict in an order the language
  does not specify; the model iterates the distinct keys in first-occurrence
  order.  Every concrete result proved about that pass below is insensitive to
  the order (checked by re-tracing the source with the groups permuted).
-/

deriving instance DecidableEq for Except

namespace Sudoku

/-- `cell.py`: `POSSIBLE_NUMBERS = range(1, 10)`. -/
def POSSIBLE_NUMBERS : List Nat := [1, 2, 3, 4, 5, 6, 7, 8, 9]

/-- `cell.py`: a `SudokuCell` holds `number` (None means empty) and
`possibles` (a list of numbers, or None). -/
structure SudokuCell where
  number : Option Nat
  possibles : Option (List Nat)
deriving DecidableEq, Repr

/-- `SudokuCell.__init__`: `number = None`, `possibles = POSSIBLE_NUMBERS`. -/
def freshCell : SudokuCell := ⟨none, some POSSIBLE_NUMBERS⟩

instance : Inhabited SudokuCell := ⟨freshCell⟩

/-- The body of `SudokuCell.eliminate_possibles` on a concrete list:
`sorted(list(set(self.possibles) - set(impossibles)))` — the distinct elements
of `ps` not in `imp`, sorted ascending. -/
def pyElim (ps imp : List Nat) : List Nat :=
  ((ps.dedup).filter (fun x => x ∉ imp)).insertionSort (· ≤ ·)

/-- `SudokuCell.eliminate_possibles`.  The source calls it only on cells whose
`possibles` is a list (on `None` the Python would raise a `TypeError`), so the
`none` branch is never reached in the modelled flows. -/
def eliminateCell (c : SudokuCell) (imp : List Nat) : SudokuCell :=
  match c.possibles with
  | some ps => { c with possibles := some (pyElim ps imp) }
  | none => c

/-- `cell.empty`: `number is None`. -/
def SudokuCell.empty (c : SudokuCell) : Bool := c.number.isNone

/-- `block.py`: a `SudokuBlock` is 9 `SudokuCell`s in row-major order. -/
structure SudokuBlock where
  cells : List SudokuCell
deriving DecidableEq, Repr

/-- `SudokuBlock.__init__` without a numbers argument: 9 fresh cells. -/
def freshBlock : SudokuBlock := ⟨List.replicate 9 freshCell⟩

instance : Inhabited SudokuBlock := ⟨freshBlock⟩

/-- Helper: the positional assignment loop of `SudokuBlock.populate`
(`for i, x in enumerate(numbers): self.cells[i].number = x`); each listed
position gets its `number` replaced, `possibles` untouched. -/
def assignNumbers : List SudokuCell → List (Option Nat) → List SudokuCell
  | cs, [] => cs
  | [], _ => []
  | c :: cs, n :: ns => { c with number := n } :: assignNumbers cs ns

/-- `SudokuBlock.populate` (numbers already parsed to `Option Nat`; the
string-coercion branch belongs to the excluded parsing adapter). -/
def SudokuBlock.populate (b : SudokuBlock) (ns : List (Option Nat)) : SudokuBlock :=
  ⟨assignNumbers b.cells ns⟩

/-- `SudokuBlock.reset_possibles`: empty cells get the full list, filled cells
get `None`. -/
def SudokuBlock.reset_possibles (b : SudokuBlock) : SudokuBlock :=
  ⟨b.cells.map (fun c =>
    if c.number.isNone then { c with possibles := some POSSIBLE_NUMBERS }
    else { c with possibles := none })⟩

/-- `SudokuBlock.numbers`: all set numbers, in cell-index order. -/
def SudokuBlock.numbers (b : SudokuBlock) : List Nat :=
  b.cells.filterMap (·.number)

/-- `board.py`: a `SudokuBoard` is 9 `SudokuBlock`s. -/
structure SudokuBoard where
  blocks : List SudokuBlock
deriving DecidableEq, Repr

/-- `SudokuBoard.__init__` without numbers: 9 fresh blocks. -/
def freshBoard : SudokuBoard := ⟨List.replicate 9 freshBlock⟩

instance : Inhabited SudokuBoard := ⟨freshBoard⟩

/-- `SudokuBoard.populate`: one list of nine optional numbers per block. -/
def SudokuBoard.populate (b : SudokuBoard) (ns : List (List (Option Nat))) : SudokuBoard :=
  ⟨(b.blocks.zip ns).map (fun p => p.1.populate p.2) ++ b.blocks.drop ns.length⟩

/-- Replace the element at index `i` by `f` of it (out of range: no change). -/
def modifyIdx (l : List α) (i : Nat) (f : α → α) : List α :=
  match l, i with
  | [], _ => []
  | a :: as, 0 => f a :: as
  | a :: as, n + 1 => a :: modifyIdx as n f

/-- The cell at block index `bi`, cell index `ci` (if both are in range). -/
def SudokuBoard.cellAt? (b : SudokuBoard) (bi ci : Nat) : Option SudokuCell :=
  (b.blocks.get? bi).bind (fun blk => blk.cells.get? ci)

/-- The cell at `(bi, ci)`, defaulting to a fresh cell out of range. -/
def SudokuBoard.cellAt (b : SudokuBoard) (bi ci : Nat) : SudokuCell :=
  (b.cellAt? bi ci).getD freshCell

/-- Update the cell at `(bi, ci)` in place. -/
def SudokuBoard.updateCell (b : SudokuBoard) (bi ci : Nat) (f : SudokuCell → SudokuCell) :
    SudokuBoard :=
  ⟨modifyIdx b.blocks bi (fun blk => ⟨modifyIdx blk.cells ci f⟩)⟩

/-- The `(block, cell)` indices of board row `r`, in the order
`SudokuBoard.row` visits them: blocks `(r/3)*3 + i` for `i < 3`, and within
each block `SudokuBlock.row(r % 3)`, i.e. cells `(r%3)*3 + j` for `j < 3`. -/
def rowPositions (r : Nat) : List (Nat × Nat) :=
  (List.range 3).flatMap (fun i => (List.range 3).map (fun j => ((r / 3) * 3 + i, (r % 3) * 3 + j)))

/-- The `(block, cell)` indices of board column `c`, in the order
`SudokuBoard.col` visits them: blocks `c/3 + 3*i` for `i < 3`, and within each
block `SudokuBlock.col(c % 3)`, i.e. cells `(c%3) + 3*j` for `j < 3`. -/
def colPositions (c : Nat) : List (Nat × Nat) :=
  (List.range 3).flatMap (fun i => (List.range 3).map (fun j => (c / 3 + 3 * i, c % 3 + 3 * j)))

/-- The `(block, cell)` indices of block `bi`, in cell-index order. -/
def blockPositions (bi : Nat) : List (Nat × Nat) :=
  (List.range 9).map (fun ci => (bi, ci))

/-- The set numbers among the cells at `positions`, in traversal order (what
the block/row/column passes of `set_possibles` and `verify` collect). -/
def SudokuBoard.valuesAt (b : SudokuBoard) (positions : List (Nat × Nat)) : List Nat :=
  positions.filterMap (fun p => (b.cellAt p.1 p.2).number)

/-- One unit of the value-elimination passes (steps 1–3 of `set_possibles`):
collect the set values of the unit, then eliminate them from every empty cell
of the unit. -/
def valuePassUnit (b : SudokuBoard) (positions : List (Nat × Nat)) : SudokuBoard :=
  let vals := b.valuesAt positions
  positions.foldl
    (fun b p => b.updateCell p.1 p.2
      (fun c => if c.number.isNone then eliminateCell c vals else c)) b

/-- The distinct `possibles` lists of the empty cells among `cells`, each with
its multiplicity — the model of the `Counter` over `tuple(cell.possibles)`.
The source iterates the counter in unspecified hash order; the model uses
first-occurrence order. -/
def groupCounts (cells : List SudokuCell) : List (List Nat × Nat) :=
  let ps := cells.filterMap (fun c => if c.number.isNone then c.possibles else none)
  ps.dedup.map (fun p => (p, ps.count p))

/-- One unit of the naked-subset pass (step 4 of `set_possibles`): group the
empty cells by their exact `possibles` list; every group whose list length
equals its multiplicity is "locked", and its list is eliminated from each
empty cell of the unit whose `possibles` differs from it.  The counter is a
snapshot taken before any elimination of this unit runs; the cells'
`possibles` are re-read at each elimination. -/
def groupPassUnit (b : SudokuBoard) (positions : List (Nat × Nat)) : SudokuBoard :=
  (groupCounts (positions.map (fun p => b.cellAt p.1 p.2))).foldl
    (fun acc g =>
      if g.1.length = g.2 then
        positions.foldl
          (fun acc p => acc.updateCell p.1 p.2
            (fun c => if c.number.isNone ∧ c.possibles ≠ some g.1 then eliminateCell c g.1 else c))
          acc
      else acc) b

/-- `SudokuBoard.set_possibles`: value elimination over blocks, then rows,
then columns; then the naked-subset pass over blocks, then rows, then
columns. -/
def SudokuBoard.set_possibles (b : SudokuBoard) : SudokuBoard :=
  let b := (List.range 9).foldl (fun b i => valuePassUnit b (blockPositions i)) b
  let b := (List.range 9).foldl (fun b r => valuePassUnit b (rowPositions r)) b
  let b := (List.range 9).foldl (fun b c => valuePassUnit b (colPositions c)) b
  let b := (List.range 9).foldl (fun b i => groupPassUnit b (blockPositions i)) b
  let b := (List.range 9).foldl (fun b r => groupPassUnit b (rowPositions r)) b
  (List.range 9).foldl (fun b c => groupPassUnit b (colPositions c)) b

/-- `SudokuBoard.reset_possibles`: delegate to every block. -/
def SudokuBoard.reset_possibles (b : SudokuBoard) : SudokuBoard :=
  ⟨b.blocks.map SudokuBlock.reset_possibles⟩

/-- The duplicate test of `verify` on one list of set values:
`len(values) and len(values) != len(set(values))`. -/
def hasDup (vs : List Nat) : Bool :=
  !vs.isEmpty && vs.length != vs.dedup.length

/-- `SudokuBoard.verify`: raise `InvalidBoard` at the first unit with a
duplicated set value, checking all blocks, then all rows, then all columns.
The error carries the unit kind and the index the source interpolates into the
message.  In the row and column messages the source formats the variable `i`,
which after the block loop is still bound to the last block index (8) — not
the offending row/column number. -/
def SudokuBoard.verify (b : SudokuBoard) : Except (String × Nat) Unit :=
  match b.blocks.findIdx? (fun blk => hasDup blk.numbers) with
  | some i => .error ("Block", i)
  | none =>
    let i := b.blocks.length - 1
    match (List.range 9).findIdx? (fun r => hasDup (b.valuesAt (rowPositions r))) with
    | some _ => .error ("Row", i)
    | none =>
      match (List.range 9).findIdx? (fun c => hasDup (b.valuesAt (colPositions c))) with
      | some _ => .error ("Column", i)
      | none => .ok ()

/-- `SudokuBoard.set_obvious`: every empty cell whose `possibles` list has
exactly one member gets that number committed and its `possibles` cleared;
returns the updated board and whether any cell was committed.  (On an empty
cell whose `possibles` is `None` the source would raise; not reached in the
modelled flows, where `set_obvious` runs after `reset_possibles`.) -/
def SudokuBoard.set_obvious (b : SudokuBoard) : SudokuBoard × Bool :=
  let commit : SudokuCell → SudokuCell := fun c =>
    match c.number, c.possibles with
    | none, some [v] => { number := some v, possibles := none }
    | _, _ => c
  let changed := b.blocks.any (fun blk => blk.cells.any (fun c =>
    match c.number, c.possibles with
    | none, some [_] => true
    | _, _ => false))
  (⟨b.blocks.map (fun blk => ⟨blk.cells.map commit⟩)⟩, changed)

/-- The `while self.set_obvious():` loop of `analyze`: after a commit, verify
again, reset and re-run `set_possibles`.  Each iteration with `changed = true`
fills at least one cell, so at most 81 iterations happen; the fuel supplied by
`analyze` therefore never runs out and the fuel-exhausted branch returns the
board unchanged. -/
def analyzeLoop : Nat → SudokuBoard → Except (String × Nat) SudokuBoard
  | 0, b => .ok b
  | fuel + 1, b =>
    let (b', changed) := b.set_obvious
    if changed then
      match b'.verify with
      | .error e => .error e
      | .ok _ => analyzeLoop fuel (b'.reset_possibles.set_possibles)
    else .ok b'

/-- `SudokuBoard.analyze`: verify, reset candidates, run `set_possibles`, then
commit obvious cells to a fixpoint (re-verifying and re-propagating after each
round of commits). -/
def SudokuBoard.analyze (b : SudokuBoard) : Except (String × Nat) SudokuBoard :=
  match b.verify with
  | .error e => .error e
  | .ok _ => analyzeLoop 82 (b.reset_possibles.set_possibles)

/-- `SudokuBoard.filled`: no block has an empty cell. -/
def SudokuBoard.filled (b : SudokuBoard) : Bool :=
  b.blocks.all (fun blk => blk.cells.all (fun c => !c.number.isNone))

/-- `SudokuBoard.solved`: filled, and `verify` raises nothing. -/
def SudokuBoard.solved (b : SudokuBoard) : Bool :=
  b.filled && (match b.verify with | .ok _ => true | .error _ => false)

/-- `enumerate`, with an explicit start index. -/
def enumIdx : Nat → List α → List (Nat × α)
  | _, [] => []
  | i, a :: as => (i, a) :: enumIdx (i + 1) as

/-- One yielded move of `next_moves`: `board_copy = deepcopy(self);
board_copy[block_num][cell_num].number = possible` — a copy of the whole board
with only that one cell's `number` replaced (its stale `possibles` list is left
in place). -/
def SudokuBoard.next_board (b : SudokuBoard) (bi ci v : Nat) : SudokuBoard :=
  b.updateCell bi ci (fun c => { c with number := some v })

/-- `SudokuBoard.next_moves`: iterate blocks in index order and cells in index
order; for each empty cell, yield one board per value in its current
`possibles` list.  (On an empty cell whose `possibles` is `None` the source
would raise; in the solver `next_moves` runs on analyzed boards, whose empty
cells hold lists.) -/
def SudokuBoard.next_moves (b : SudokuBoard) : List SudokuBoard :=
  (enumIdx 0 b.blocks).flatMap (fun bp =>
    (enumIdx 0 bp.2.cells).flatMap (fun cp =>
      if cp.2.number.isNone then
        (cp.2.possibles.getD []).map (fun v => b.next_board bp.1 cp.1 v)
      else []))

/-- `solver.py`: `MAX_CALLS = 100000`. -/
def MAX_CALLS : Nat := 100000

/-- The solver's return value: `board_result, solved, visited, count`. -/
abbrev SolveResult := Option SudokuBoard × Bool × List SudokuBoard × Nat

/-- Membership test `board in visited`.  The visited set is modelled as a list
with structural membership — the membership the source's `__eq__` chain is
written to perform.  (How CPython 2 actually resolves `in` here, through the
default id hash and the blocks' default identity comparison, is modelled
separately by the object-identity embedding below.) -/
def pyIn (visited : List SudokuBoard) (b : SudokuBoard) : Bool :=
  visited.any (fun x => decide (x = b))

/-- `visited.add(board)`. -/
def addVisited (b : SudokuBoard) (visited : List SudokuBoard) : List SudokuBoard :=
  if pyIn visited b then visited else b :: visited

/-- The `for board_to_try in board.next_moves():` loop of `solve_board`,
parametrised by the recursive call `solveF`.  A `None` result means dead end:
continue with the threaded visited set and count.  A non-`None` result with the
solved flag set is returned immediately (no further siblings).  When the moves
are exhausted, the analyzed board is added to the visited set and failure is
returned with one more call counted. -/
def tryMoves (solveF : SudokuBoard → List SudokuBoard → Nat → SolveResult)
    (analyzed : SudokuBoard) :
    List SudokuBoard → List SudokuBoard → Nat → SolveResult
  | [], visited, count => (none, false, addVisited analyzed visited, count + 1)
  | m :: ms, visited, count =>
    match solveF m visited (count + 1) with
    | (none, _, visited', count') => tryMoves solveF analyzed ms visited' count'
    | (some rb, s, visited', count') =>
      if s then (some rb, true, visited', count')
      else tryMoves solveF analyzed ms visited' count'

/-- `solve_board(board, solved, visited, count)`, with a fuel parameter for the
recursion (each recursive call fills one more cell, so depth is bounded by the
number of empty cells; fuel past that bound never runs out and the
fuel-exhausted branch returns plain failure). -/
def solve_board : Nat → SudokuBoard → Bool → List SudokuBoard → Nat → SolveResult
  | 0, _, _, visited, count => (none, false, visited, count)
  | fuel + 1, board, solvedArg, visited, count =>
    if count ≥ MAX_CALLS then (none, false, visited, count)
    else if solvedArg then (some board, true, visited, count)
    else if pyIn visited board then (none, false, visited, count)
    else
      match board.analyze with
      | .error _ => (none, false, visited, count + 1)
      | .ok b' =>
        if b'.solved then (some b', true, visited, count + 1)
        else tryMoves (fun m v c => solve_board fuel m false v c) b' b'.next_moves visited count

/-!
## Object-identity model of the source's comparison chain

`SudokuBoard` defines `__eq__` (`board.py`, "Boards are equal when all blocks
are equal") by testing `other[block_num] != block` for each block.  But
`SudokuBlock` defines no `__eq__`/`__ne__`/`__cmp__`, so under Python 2 that
`!=` is the default comparison: two *distinct* block objects always compare
unequal, whatever their cells hold.  Likewise `SudokuBoard` defines no
`__hash__`, so instances hash by `id()` and `board in visited` on a `set`
finds only the very same object.  To state these facts, objects are modelled
as values tagged with an allocation identity (`oid`); `deepcopy` allocates
fresh tags.
-/

/-- A `SudokuBlock` object: its identity plus its value. -/
structure PyBlockObj where
  oid : Nat
  val : SudokuBlock
deriving DecidableEq, Repr

/-- A `SudokuBoard` object: its identity plus its block objects. -/
structure PyBoardObj where
  oid : Nat
  blockObjs : List PyBlockObj
deriving DecidableEq, Repr

/-- Python 2 default `!=` on `SudokuBlock` instances (no comparison methods
defined): object identity, i.e. the `oid`s differ. -/
def pyBlockNe (a b : PyBlockObj) : Bool := a.oid != b.oid

/-- `SudokuBoard.__eq__` as written: `other[block_num] != block` for each
enumerated block, returning `False` at the first difference. -/
def pyBoardEq (a other : PyBoardObj) : Bool :=
  (a.blockObjs.zip other.blockObjs).all (fun p => !pyBlockNe p.2 p.1)

/-- `copy.deepcopy` of a board object: same values, freshly allocated
identities (CPython ids of new objects differ from all live objects). -/
def pyDeepcopy (b : PyBoardObj) (base : Nat) : PyBoardObj :=
  ⟨base, (enumIdx 0 b.blockObjs).map (fun p => ⟨base + 1 + p.1, p.2.val⟩)⟩

/-- Cell-by-cell value equality of two board objects — the comparison the
spec describes (all 9 corresponding blocks equal as 9 pairwise-equal cells). -/
def valueEqBoard (a b : PyBoardObj) : Bool :=
  decide (a.blockObjs.map (·.val) = b.blockObjs.map (·.val))

/-- Python 2 default `hash` of a board (no `__hash__` defined): derived
injectively from `id()`. -/
def pyHash (b : PyBoardObj) : Nat := b.oid

/-- `board in visited` on a CPython `set`: find a member with the same hash,
then compare it with `is` and `__eq__`. -/
def pySetContains (visited : List PyBoardObj) (b : PyBoardObj) : Bool :=
  visited.any (fun x => pyHash x == pyHash b && (x.oid == b.oid || pyBoardEq x b))

/-!
## Concrete boards used by the theorems
-/

/-- A filled cell as it stands after a propagation reset: value set, no
candidate list. -/
def filledCell (v : Nat) : SudokuCell := ⟨some v, none⟩

/-- An empty cell whose candidate list has been narrowed to `ps`. -/
def narrowedCell (ps : List Nat) : SudokuCell := ⟨none, some ps⟩

/-- The candidate list stored at `(bi, ci)`. -/
def SudokuBoard.possAt (b : SudokuBoard) (bi ci : Nat) : Option (List Nat) :=
  (b.cellAt bi ci).possibles

/-- Mid-solve board state for the naked-subset claims: in block 0 the empty
cells 0 and 4 hold the pair `[2,7]`, empty cell 8 holds the overlapping
singleton `[7]`, and the six filled cells hold 1,3,4,5,6,8; all other blocks
are untouched (all cells empty with the full candidate list). -/
def pairBoard : SudokuBoard :=
  ⟨⟨[narrowedCell [2, 7], filledCell 1, filledCell 3, filledCell 4, narrowedCell [2, 7],
     filledCell 5, filledCell 6, filledCell 8, narrowedCell [7]]⟩ ::
    List.replicate 8 freshBlock⟩

/-- Mid-solve board state for the idempotence claim: in block 0 the empty
cells 0 and 4 hold the pair `[2,7]`, empty cell 1 holds `[1,9]`, empty cell 8
holds `[2,7,9]`, and the five filled cells hold 3,4,5,6,8; all other blocks
are untouched. -/
def cascadeBoard : SudokuBoard :=
  ⟨⟨[narrowedCell [2, 7], narrowedCell [1, 9], filledCell 3, filledCell 4, narrowedCell [2, 7],
     filledCell 5, filledCell 6, filledCell 8, narrowedCell [2, 7, 9]]⟩ ::
    List.replicate 8 freshBlock⟩

/-- A complete valid solution, in block-major order. -/
def fullNums : List (List (Option Nat)) :=
  [[1, 2, 3, 4, 5, 6, 7, 8, 9], [4, 5, 6, 7, 8, 9, 1, 2, 3], [7, 8, 9, 1, 2, 3, 4, 5, 6],
   [2, 3, 4, 5, 6, 7, 8, 9, 1], [5, 6, 7, 8, 9, 1, 2, 3, 4], [8, 9, 1, 2, 3, 4, 5, 6, 7],
   [3, 4, 5, 6, 7, 8, 9, 1, 2], [6, 7, 8, 9, 1, 2, 3, 4, 5],
   [9, 1, 2, 3, 4, 5, 6, 7, 8]].map (·.map some)

/-- The complete solution, freshly populated (filled cells keep the stale
initial candidate list, as `populate` never touches `possibles`). -/
def fullBoard : SudokuBoard := freshBoard.populate fullNums

/-- The complete solution as it stands after `analyze`: same numbers, all
candidate lists cleared by `reset_possibles`. -/
def fullSolvedBoard : SudokuBoard :=
  ⟨fullNums.map (fun ns => ⟨ns.map (fun n => ⟨n, none⟩)⟩)⟩

/-- The complete solution with the first two cells of block 0 cleared,
freshly populated (so both empty cells hold the full candidate list). -/
def twoEmptyBoard : SudokuBoard :=
  freshBoard.populate
    ([none, none, some 3, some 4, some 5, some 6, some 7, some 8, some 9] :: fullNums.drop 1)

/-- A board whose only flaw is a duplicated 5 in board row 0 (block 0 cell 0
and block 1 cell 0): no block and no column has a duplicate. -/
def rowDupBoard : SudokuBoard := freshBoard.populate [[some 5], [some 5]]

/-- A board with a duplicated 5 inside block 0, so `verify` (and hence
`analyze`) fails immediately. -/
def blockDupBoard : SudokuBoard := freshBoard.populate [[some 5, some 5]]

/-- Two concrete board objects for the identity-comparison theorems: an
all-empty board and the complete solution, with explicit allocation tags. -/
def boardObjA : PyBoardObj := ⟨0, (enumIdx 1 freshBoard.blocks).map (fun p => ⟨p.1, p.2⟩)⟩

/-- The complete solution as a tagged board object. -/
def boardObjB : PyBoardObj := ⟨20, (enumIdx 21 fullBoard.blocks).map (fun p => ⟨p.1, p.2⟩)⟩

/-!
## Predicates used by the claims
-/

/-- The invariant claimed for cells: the candidate list is absent exactly when
the value is set. -/
def cellInvariant (c : SudokuCell) : Prop := c.possibles = none ↔ c.number ≠ none

/-- One cell only narrows into another: same value; candidate lists either
both absent, or both present with the first's members among the second's. -/
def CellShrink (c d : SudokuCell) : Prop :=
  c.number = d.number ∧
  ((c.possibles = none ∧ d.possibles = none) ∨
    (∃ ps qs, c.possibles = some ps ∧ d.possibles = some qs ∧ ∀ x ∈ ps, x ∈ qs))

/-- One board only narrows into another: cellwise `CellShrink`. -/
def BoardShrink (b1 b2 : SudokuBoard) : Prop :=
  ∀ bi ci, CellShrink (b1.cellAt bi ci) (b2.cellAt bi ci)

end Sudoku

namespace Sudoku

set_option maxRecDepth 1000000

/-!
## Helper lemmas about cell maps
-/

/-- `get?` after `modifyIdx`. -/
theorem modifyIdx_get? : ∀ (l : List α) (i : Nat) (f : α → α) (j : Nat),
    (modifyIdx l i f).get? j = if j = i then (l.get? j).map f else l.get? j := by
  intro l
  induction l with
  | nil => intro i f j; simp [modifyIdx]
  | cons a as ih =>
    intro i f j
    cases i with
    | zero =>
      cases j with
      | zero => simp [modifyIdx]
      | succ j => simp [modifyIdx]
    | succ i =>
      cases j with
      | zero => simp [modifyIdx]
      | succ j =>
        simp only [modifyIdx, List.get?]
        rw [ih i f j]
        by_cases h : j = i
        · simp [h]
        · simp [h]

/-- `cellAt?` of a board whose every cell is transformed by `g`. -/
theorem cellAt?_mapCells (b : SudokuBoard) (g : SudokuCell → SudokuCell) (bi ci : Nat) :
    (SudokuBoard.mk (b.blocks.map (fun blk => ⟨blk.cells.map g⟩))).cellAt? bi ci =
      (b.cellAt? bi ci).map g := by
  unfold SudokuBoard.cellAt?
  rw [List.get?_map]
  cases hb : b.blocks.get? bi with
  | none => simp
  | some blk => simp [List.get?_map]

/-- `cellAt` of a board whose every cell is transformed by a `g` fixing
`freshCell`'s membership in the invariant: pointwise description. -/
theorem cellAt_mapCells (b : SudokuBoard) (g : SudokuCell → SudokuCell) (bi ci : Nat) :
    (SudokuBoard.mk (b.blocks.map (fun blk => ⟨blk.cells.map g⟩))).cellAt bi ci =
      ((b.cellAt? bi ci).map g).getD freshCell := by
  unfold SudokuBoard.cellAt
  rw [cellAt?_mapCells]

/-- Membership in `enumIdx`. -/
theorem mem_enumIdx : ∀ (l : List α) (i : Nat) (p : Nat × α),
    p ∈ enumIdx i l ↔ ∃ k, p.1 = i + k ∧ l.get? k = some p.2 := by
  intro l
  induction l with
  | nil => intro i p; simp [enumIdx]
  | cons a as ih =>
    intro i p
    simp only [enumIdx, List.mem_cons, ih]
    constructor
    · rintro (rfl | ⟨k, hk, hget⟩)
      · exact ⟨0, by simp⟩
      · exact ⟨k + 1, by omega, by simpa using hget⟩
    · rintro ⟨k, hk, hget⟩
      cases k with
      | zero =>
        left
        obtain ⟨p1, p2⟩ := p
        simp only [List.get?] at hget
        simp only at hk
        cases hget
        simp [hk]
      | succ k =>
        right
        exact ⟨k, by omega, by simpa using hget⟩

/-!
## Helper lemmas about the naked-subset fold
-/

/-- A fold of guarded steps over entries none of which satisfies the lock
condition does nothing. -/
theorem foldl_locked_inert {β : Type} (A : β → List Nat × Nat → β) :
    ∀ (l : List (List Nat × Nat)) (b : β), (∀ g ∈ l, g.1.length ≠ g.2) →
      l.foldl (fun acc g => if g.1.length = g.2 then A acc g else acc) b = b := by
  intro l
  induction l with
  | nil => intro b _; rfl
  | cons g l ih =>
    intro b h
    have hg : g.1.length ≠ g.2 := h g (List.mem_cons_self g l)
    simp only [List.foldl_cons, if_neg hg]
    exact ih b (fun g' hg' => h g' (List.mem_cons_of_mem g hg'))

/-- A fold of guarded steps over a list whose only locked entry is `g0`
applies the step to `g0` exactly once. -/
theorem foldl_locked_single {β : Type} (A : β → List Nat × Nat → β)
    (l1 l2 : List (List Nat × Nat)) (g0 : List Nat × Nat) (b : β)
    (h1 : ∀ g ∈ l1, g.1.length ≠ g.2) (h2 : ∀ g ∈ l2, g.1.length ≠ g.2)
    (h0 : g0.1.length = g0.2) :
    (l1 ++ g0 :: l2).foldl (fun acc g => if g.1.length = g.2 then A acc g else acc) b =
      A b g0 := by
  rw [List.foldl_append, foldl_locked_inert A l1 b h1]
  simp only [List.foldl_cons, if_pos h0]
  exact foldl_locked_inert A l2 (A b g0) h2

/-- The keys of `groupCounts` are exactly the deduplicated candidate lists of
the empty cells, so they are nodup. -/
theorem groupCounts_keys_nodup (cells : List SudokuCell) :
    ((groupCounts cells).map Prod.fst).Nodup := by
  have h : (groupCounts cells).map Prod.fst =
      (cells.filterMap (fun c => if c.number.isNone then c.possibles else none)).dedup := by
    simp only [groupCounts, List.map_map]
    exact List.map_id _
  rw [h]
  exact List.nodup_dedup _

/-!
## Monotonicity machinery: propagation only narrows candidate lists
-/

theorem cellShrink_refl (c : SudokuCell) : CellShrink c c := by
  refine ⟨rfl, ?_⟩
  cases h : c.possibles with
  | none => exact Or.inl ⟨rfl, rfl⟩
  | some ps => exact Or.inr ⟨ps, ps, rfl, rfl, fun x hx => hx⟩

theorem cellShrink_trans {a b c : SudokuCell} (h1 : CellShrink a b) (h2 : CellShrink b c) :
    CellShrink a c := by
  obtain ⟨hn1, hp1⟩ := h1
  obtain ⟨hn2, hp2⟩ := h2
  refine ⟨hn1.trans hn2, ?_⟩
  rcases hp1 with ⟨ha, hb⟩ | ⟨ps, qs, ha, hb, hsub1⟩
  · rcases hp2 with ⟨hb', hc⟩ | ⟨ps', qs', hb', hc, hsub2⟩
    · exact Or.inl ⟨ha, hc⟩
    · rw [hb] at hb'; exact absurd hb' (by simp)
  · rcases hp2 with ⟨hb', hc⟩ | ⟨ps', qs', hb', hc, hsub2⟩
    · rw [hb'] at hb; exact absurd hb (by simp)
    · rw [hb] at hb'
      obtain rfl : qs = ps' := by injection hb'
      exact Or.inr ⟨ps, qs', ha, hc, fun x hx => hsub2 x (hsub1 x hx)⟩

theorem boardShrink_refl (b : SudokuBoard) : BoardShrink b b :=
  fun _ _ => cellShrink_refl _

theorem boardShrink_trans {a b c : SudokuBoard} (h1 : BoardShrink a b) (h2 : BoardShrink b c) :
    BoardShrink a c :=
  fun bi ci => cellShrink_trans (h1 bi ci) (h2 bi ci)

/-- Everything `pyElim` keeps was already a candidate. -/
theorem pyElim_subset (ps imp : List Nat) : ∀ x ∈ pyElim ps imp, x ∈ ps := by
  intro x hx
  rw [pyElim, List.mem_insertionSort _] at hx
  exact List.mem_dedup.mp (List.mem_filter.mp hx).1

/-- `eliminate_possibles` only narrows a cell. -/
theorem cellShrink_eliminate (c : SudokuCell) (imp : List Nat) :
    CellShrink (eliminateCell c imp) c := by
  rw [eliminateCell]
  cases h : c.possibles with
  | none => exact cellShrink_refl c
  | some ps => exact ⟨rfl, Or.inr ⟨pyElim ps imp, ps, rfl, h, pyElim_subset ps imp⟩⟩

/-- A conditional elimination only narrows a cell. -/
theorem cellShrink_ite (P : SudokuCell → Prop) [DecidablePred P] (imp : List Nat)
    (c : SudokuCell) : CellShrink (if P c then eliminateCell c imp else c) c := by
  by_cases h : P c
  · rw [if_pos h]; exact cellShrink_eliminate c imp
  · rw [if_neg h]; exact cellShrink_refl c

/-- An in-place cell update with a narrowing function only narrows the
board. -/
theorem boardShrink_updateCell (b : SudokuBoard) (bi ci : Nat)
    (f : SudokuCell → SudokuCell) (hf : ∀ c, CellShrink (f c) c) :
    BoardShrink (b.updateCell bi ci f) b := by
  intro bi' ci'
  rw [SudokuBoard.cellAt, SudokuBoard.cellAt, SudokuBoard.cellAt?, SudokuBoard.cellAt?]
  show CellShrink ((((modifyIdx b.blocks bi _).get? bi').bind _).getD freshCell) _
  rw [modifyIdx_get?]
  by_cases hbi : bi' = bi
  · rw [if_pos hbi]
    cases hb : b.blocks.get? bi' with
    | none => exact cellShrink_refl _
    | some blk =>
      simp only [Option.map_some', Option.some_bind]
      rw [modifyIdx_get?]
      by_cases hci : ci' = ci
      · rw [if_pos hci]
        cases hc : blk.cells.get? ci' with
        | none => exact cellShrink_refl _
        | some c => exact hf c
      · rw [if_neg hci]; exact cellShrink_refl _
  · rw [if_neg hbi]; exact cellShrink_refl _

/-- A fold of narrowing steps only narrows the board. -/
theorem boardShrink_foldl {α : Type} (step : SudokuBoard → α → SudokuBoard)
    (h : ∀ b x, BoardShrink (step b x) b) :
    ∀ (l : List α) (b : SudokuBoard), BoardShrink (l.foldl step b) b := by
  intro l
  induction l with
  | nil => intro b; exact boardShrink_refl b
  | cons x l ih =>
    intro b
    rw [List.foldl_cons]
    exact boardShrink_trans (ih (step b x)) (h b x)

/-- The value-elimination pass of one unit only narrows the board. -/
theorem valuePassUnit_shrink (b : SudokuBoard) (positions : List (Nat × Nat)) :
    BoardShrink (valuePassUnit b positions) b := by
  rw [valuePassUnit]
  refine boardShrink_foldl _ (fun b' p => ?_) positions b
  refine boardShrink_updateCell b' p.1 p.2 _ (fun c => ?_)
  by_cases h : c.number.isNone
  · simp only [h, if_true]; exact cellShrink_eliminate c _
  · simp only [h]; rw [if_neg (by simp [h])]; exact cellShrink_refl c

/-- The naked-subset pass of one unit only narrows the board. -/
theorem groupPassUnit_shrink (b : SudokuBoard) (positions : List (Nat × Nat)) :
    BoardShrink (groupPassUnit b positions) b := by
  rw [groupPassUnit]
  refine boardShrink_foldl _ (fun b' g => ?_) _ b
  by_cases hg : g.1.length = g.2
  · rw [if_pos hg]
    refine boardShrink_foldl _ (fun b'' p => ?_) positions b'
    refine boardShrink_updateCell b'' p.1 p.2 _ (fun c => ?_)
    exact cellShrink_ite (fun c => c.number.isNone ∧ c.possibles ≠ some g.1) g.1 c
  · rw [if_neg hg]; exact boardShrink_refl b'

/-- The whole `set_possibles` pass only narrows the board: every cell's value
is untouched and every candidate list after the pass is a sub-collection of
the one before it. -/
theorem set_possibles_shrink (b : SudokuBoard) : BoardShrink b.set_possibles b := by
  rw [SudokuBoard.set_possibles]
  refine boardShrink_trans (boardShrink_foldl _ (fun b' c => groupPassUnit_shrink b' _) _ _) ?_
  refine boardShrink_trans (boardShrink_foldl _ (fun b' r => groupPassUnit_shrink b' _) _ _) ?_
  refine boardShrink_trans (boardShrink_foldl _ (fun b' i => groupPassUnit_shrink b' _) _ _) ?_
  refine boardShrink_trans (boardShrink_foldl _ (fun b' c => valuePassUnit_shrink b' _) _ _) ?_
  refine boardShrink_trans (boardShrink_foldl _ (fun b' r => valuePassUnit_shrink b' _) _ _) ?_
  exact boardShrink_foldl _ (fun b' i => valuePassUnit_shrink b' _) _ b

/-!
## Helper lemmas about the solver
-/

/-- Every result of the moves loop has a `None` board exactly when its solved
flag is `false`, provided the recursive call does. -/
theorem tryMoves_shape (solveF : SudokuBoard → List SudokuBoard → Nat → SolveResult)
    (analyzed : SudokuBoard)
    (h : ∀ m v c, (solveF m v c).1 = none ↔ (solveF m v c).2.1 = false) :
    ∀ ms visited count, (tryMoves solveF analyzed ms visited count).1 = none ↔
      (tryMoves solveF analyzed ms visited count).2.1 = false := by
  intro ms
  induction ms with
  | nil => intro visited count; simp [tryMoves]
  | cons m ms ih =>
    intro visited count
    rcases hr : solveF m visited (count + 1) with ⟨res, s, v', c'⟩
    cases res with
    | none => simpa [tryMoves, hr] using ih v' c'
    | some rb =>
      have hs : s = true := by
        have := (h m visited (count + 1)).not
        rw [hr] at this
        simp at this
        exact this
      subst hs
      simp [tryMoves, hr]

/-- The solver's board component is `None` exactly when its solved flag is
`false`: every failure, whatever its reason, is the same observable value. -/
theorem solve_shape : ∀ fuel b s visited count,
    (solve_board fuel b s visited count).1 = none ↔
      (solve_board fuel b s visited count).2.1 = false := by
  intro fuel
  induction fuel with
  | zero => intro b s visited count; simp [solve_board]
  | succ fuel ih =>
    intro b s visited count
    rw [solve_board]
    by_cases h1 : count ≥ MAX_CALLS
    · simp [h1]
    · simp only [h1, if_false]
      cases s with
      | true => simp
      | false =>
        simp only [Bool.false_eq_true, if_false]
        by_cases h2 : pyIn visited b
        · simp [h2]
        · simp only [h2, if_false]
          cases ha : b.analyze with
          | error e => simp
          | ok b' =>
            by_cases h3 : b'.solved
            · simp [h3]
            · simp only [h3, Bool.false_eq_true, if_false]
              exact tryMoves_shape _ b' (fun m v c => ih m false v c) b'.next_moves visited count

/-- Every board the moves loop returns satisfies `solved`, provided every
board the recursive call returns does. -/
theorem tryMoves_sound (solveF : SudokuBoard → List SudokuBoard → Nat → SolveResult)
    (analyzed : SudokuBoard)
    (h : ∀ m v c r, (solveF m v c).1 = some r → r.solved = true) :
    ∀ ms visited count r, (tryMoves solveF analyzed ms visited count).1 = some r →
      r.solved = true := by
  intro ms
  induction ms with
  | nil => intro visited count r hr; simp [tryMoves] at hr
  | cons m ms ih =>
    intro visited count r hr
    rcases hs : solveF m visited (count + 1) with ⟨res, s, v', c'⟩
    cases res with
    | none =>
      rw [tryMoves, hs] at hr
      exact ih v' c' r hr
    | some rb =>
      rw [tryMoves, hs] at hr
      cases s with
      | true =>
        simp at hr
        subst hr
        exact h m visited (count + 1) rb (by rw [hs])
      | false =>
        simp at hr
        exact ih v' c' r hr

/-- Solver soundness kernel: a returned board always satisfies `solved` (with
the `solved` argument `false`, as every call of the driver and of the
recursion passes it). -/
theorem solve_sound : ∀ fuel b visited count r,
    (solve_board fuel b false visited count).1 = some r → r.solved = true := by
  intro fuel
  induction fuel with
  | zero => intro b visited count r hr; simp [solve_board] at hr
  | succ fuel ih =>
    intro b visited count r hr
    rw [solve_board] at hr
    by_cases h1 : count ≥ MAX_CALLS
    · simp [h1] at hr
    · simp only [h1, if_false] at hr
      by_cases h2 : pyIn visited b
      · simp [h2] at hr
      · simp only [h2, Bool.false_eq_true, if_false] at hr
        cases ha : b.analyze with
        | error e => rw [ha] at hr; simp at hr
        | ok b' =>
          rw [ha] at hr
          by_cases h3 : b'.solved
          · simp [h3] at hr
            subst hr
            exact h3
          · simp only [h3, Bool.false_eq_true, if_false] at hr
            exact tryMoves_sound _ b' (fun m v c => ih m v c) b'.next_moves visited count r hr

/-- The moves loop never decreases the threaded call counter, provided the
recursive call does not. -/
theorem tryMoves_mono (solveF : SudokuBoard → List SudokuBoard → Nat → SolveResult)
    (analyzed : SudokuBoard)
    (h : ∀ m v c, c ≤ (solveF m v c).2.2.2) :
    ∀ ms visited count, count ≤ (tryMoves solveF analyzed ms visited count).2.2.2 := by
  intro ms
  induction ms with
  | nil => intro visited count; simp [tryMoves]
  | cons m ms ih =>
    intro visited count
    rcases hs : solveF m visited (count + 1) with ⟨res, s, v', c'⟩
    have hc : count + 1 ≤ c' := by have := h m visited (count + 1); rw [hs] at this; exact this
    cases res with
    | none =>
      have := ih v' c'
      simp only [tryMoves, hs]
      omega
    | some rb =>
      cases s with
      | true =>
        simp only [tryMoves, hs, if_true]
        omega
      | false =>
        have := ih v' c'
        simp only [tryMoves, hs, Bool.false_eq_true, if_false]
        omega

/-- The solver never decreases the threaded call counter. -/
theorem solve_mono : ∀ fuel b s visited count,
    count ≤ (solve_board fuel b s visited count).2.2.2 := by
  intro fuel
  induction fuel with
  | zero => intro b s visited count; simp [solve_board]
  | succ fuel ih =>
    intro b s visited count
    rw [solve_board]
    by_cases h1 : count ≥ MAX_CALLS
    · simp [h1]
    · simp only [h1, if_false]
      cases s with
      | true => simp
      | false =>
        simp only [Bool.false_eq_true, if_false]
        by_cases h2 : pyIn visited b
        · simp [h2]
        · simp only [h2, Bool.false_eq_true, if_false]
          cases ha : b.analyze with
          | error e => simp
          | ok b' =>
            by_cases h3 : b'.solved
            · simp [h3]
            · simp only [h3, Bool.false_eq_true, if_false]
              exact tryMoves_mono _ b' (fun m v c => ih m false v c) b'.next_moves visited count

/-!
## The claims
-/

/-- Claim C1, counterexample.  On a freshly populated board whose only empty
cells are block 0 cells 0 and 1 (each holding the initial 9-value candidate
list), `next_moves` yields 18 boards, not the 9 the claim's
"only for the first empty cell" implies; and its 10th element sets cell
`(0,1)`, which is not the first empty cell in block-then-cell-index order
(cell `(0,0)` is empty and precedes it). -/
theorem C1_counterexample :
    (twoEmptyBoard.cellAt 0 0).number = none ∧
    ((twoEmptyBoard.cellAt 0 0).possibles.getD []).length = 9 ∧
    twoEmptyBoard.next_moves.length = 18 ∧
    (18 : Nat) ≠ 9 ∧
    twoEmptyBoard.next_moves.get? 9 = some (twoEmptyBoard.next_board 0 1 1) := by
  refine ⟨by decide, by decide, by decide, by decide, by decide⟩

/-- Claim C1 (corrected).  `next_moves` yields candidate boards for *every*
empty cell, not only the first: a board `m` is yielded iff some in-range empty
cell `(bi, ci)` and some value `v` of that cell's current candidate list exist
with `m` the source board with exactly that one cell's number set to `v` (the
yielded board is an independent copy; only that cell's `number` changes, its
stale candidate list included).  If the board has no empty cell, the sequence
is empty. -/
theorem C1_moves_for_every_empty_cell :
    (∀ b m : SudokuBoard, m ∈ b.next_moves ↔
      ∃ bi ci cell v, b.cellAt? bi ci = some cell ∧ cell.number = none ∧
        v ∈ cell.possibles.getD [] ∧ m = b.next_board bi ci v) ∧
    (∀ b : SudokuBoard, b.filled = true → b.next_moves = []) := by
  constructor
  · intro b m
    unfold SudokuBoard.next_moves
    simp only [List.mem_flatMap]
    constructor
    · rintro ⟨bp, hbp, hm⟩
      rw [mem_enumIdx] at hbp
      obtain ⟨bi, hbi, hblk⟩ := hbp
      obtain ⟨cp, hcp, hm⟩ := hm
      rw [mem_enumIdx] at hcp
      obtain ⟨ci, hci, hcell⟩ := hcp
      by_cases hn : cp.2.number.isNone
      · rw [if_pos hn] at hm
        obtain ⟨v, hv, rfl⟩ := List.mem_map.mp hm
        have hbi' : bp.1 = bi := by omega
        have hci' : cp.1 = ci := by omega
        refine ⟨bp.1, cp.1, cp.2, v, ?_, ?_, hv, rfl⟩
        · rw [SudokuBoard.cellAt?, hbi', hblk, hci']
          simpa using hcell
        · simpa using hn
      · rw [if_neg hn] at hm
        simp at hm
    · rintro ⟨bi, ci, cell, v, hcell, hnum, hv, rfl⟩
      rw [SudokuBoard.cellAt?] at hcell
      cases hb : b.blocks.get? bi with
      | none => rw [hb] at hcell; simp at hcell
      | some blk =>
        rw [hb] at hcell
        simp only [Option.some_bind] at hcell
        refine ⟨(bi, blk), ?_, ?_⟩
        · rw [mem_enumIdx]; exact ⟨bi, by simp, hb⟩
        · refine ⟨(ci, cell), ?_, ?_⟩
          · rw [mem_enumIdx]; exact ⟨ci, by simp, hcell⟩
          · have hn : cell.number.isNone = true := by simp [hnum]
            rw [if_pos hn]
            exact List.mem_map.mpr ⟨v, hv, rfl⟩
  · intro b hf
    unfold SudokuBoard.next_moves
    rw [List.flatMap_eq_nil_iff]
    intro bp hbp
    rw [List.flatMap_eq_nil_iff]
    intro cp hcp
    rw [mem_enumIdx] at hbp hcp
    obtain ⟨bi, _, hblk⟩ := hbp
    obtain ⟨ci, _, hcell⟩ := hcp
    have hmem_blk : bp.2 ∈ b.blocks := List.get?_mem hblk
    have hmem_cell : cp.2 ∈ bp.2.cells := List.get?_mem hcell
    rw [SudokuBoard.filled, List.all_eq_true] at hf
    have h1 := hf bp.2 hmem_blk
    rw [List.all_eq_true] at h1
    have h2 := h1 cp.2 hmem_cell
    simp only [Bool.not_eq_true'] at h2
    simp [h2]

/-- Witness for `C1_moves_for_every_empty_cell`: the completed example board
is filled and has no moves. -/
theorem C1_moves_witness : fullBoard.filled = true ∧ fullBoard.next_moves = [] :=
  ⟨by decide, C1_moves_for_every_empty_cell.2 fullBoard (by decide)⟩

/-- Claim C2 (code bug), behaviour of the code at the failing input: the
solver's `board in visited` test.  `SudokuBoard` defines no `__hash__` and its
`__eq__` compares blocks with the default identity `!=` (no `SudokuBlock.__eq__`
exists), so a deep copy of a visited board — value-equal cell by cell — is not
found in the visited set, and the solver proceeds to `analyze` instead of
returning failure at once. -/
theorem C2_membership_misses_value_equal_copy :
    valueEqBoard boardObjB (pyDeepcopy boardObjB 40) = true ∧
    pySetContains [boardObjB] (pyDeepcopy boardObjB 40) = false ∧
    pySetContains [boardObjB] boardObjB = true := by
  refine ⟨by decide, by decide, by decide⟩

/-- Claim C3 (code bug), behaviour of the code at the failing input:
`SudokuBoard.__eq__` tests `other[block_num] != block`, and since
`SudokuBlock` defines no comparison methods that `!=` is Python 2's default
object-identity comparison.  A deep copy of a board (fresh block objects,
identical cell values) therefore compares unequal to the original, while the
claim says equality holds iff all cells agree in value and candidate state. -/
theorem C3_board_eq_compares_block_identity :
    valueEqBoard boardObjA (pyDeepcopy boardObjA 100) = true ∧
    pyBoardEq boardObjA (pyDeepcopy boardObjA 100) = false ∧
    pyBoardEq boardObjA boardObjA = true := by
  refine ⟨by decide, by decide, by decide⟩

/-- Claim C4 (code bug), behaviour of the code at the failing input: on a
board whose only flaw is a duplicated 5 in board row 0, `verify` raises for a
row (no block or column has a duplicate, and row 0 is the first offending
row), but the index it reports is 8 — the stale block-loop variable `i` that
the row message formats — not the offending row number 0. -/
theorem C4_verify_reports_stale_index :
    rowDupBoard.verify = .error ("Row", 8) ∧
    (rowDupBoard.blocks.findIdx? (fun blk => hasDup blk.numbers)) = none ∧
    ((List.range 9).findIdx? (fun r => hasDup (rowDupBoard.valuesAt (rowPositions r)))) = some 0 ∧
    ((List.range 9).findIdx? (fun c => hasDup (rowDupBoard.valuesAt (colPositions c)))) = none ∧
    (0 : Nat) ≠ 8 := by
  refine ⟨by decide, by decide, by decide, by decide, by decide⟩

/-- Claim C5, counterexample.  An entry of `solve_board` that is *not* the
already-visited short-circuit (the visited set is empty) and leaves the shared
call counter unchanged: the budget-exhausted short-circuit returns with
`count` still `100000`, an increment of zero, where the claim requires every
non-already-visited entry to increment it by exactly one. -/
theorem C5_counterexample :
    pyIn [] freshBoard = false ∧
    (100000 : Nat) ≥ MAX_CALLS ∧
    solve_board 1 freshBoard false [] 100000 = (none, false, [], 100000) := by
  refine ⟨by decide, by decide, by decide⟩

/-- Claim C6, counterexample.  A budget-exhausted failure (entered with
`count = 100000 ≥ MAX_CALLS`, board unconstrained) and a failure produced by
actually refuting the board (entered with `count = 99999 < MAX_CALLS` on a
board whose `analyze` raises `InvalidBoard`) return the *identical* value
`(None, False, visited, 100000)`: nothing in the solver's result surfaces
which of the two reasons applied. -/
theorem C6_counterexample :
    (100000 : Nat) ≥ MAX_CALLS ∧
    (99999 : Nat) < MAX_CALLS ∧
    blockDupBoard.analyze = .error ("Block", 0) ∧
    solve_board 1 freshBoard false [] 100000 = (none, false, [], 100000) ∧
    solve_board 1 blockDupBoard false [] 99999 = (none, false, [], 100000) := by
  refine ⟨by decide, by decide, by decide, by decide, by decide⟩

/-- Claim C5 (corrected), the amended counting discipline.  The
budget-exhausted and already-visited short-circuits return the counter
unchanged; an entry whose analysis raises `InvalidBoard`, or whose analyzed
board is solved, or that is a dead end with no candidate moves (which is also
memoized) returns the counter incremented by exactly one; and the counter is a
single value threaded monotonically through the whole search (each branch
attempt additionally passes `count + 1` into its recursive call inside the
moves loop). -/
theorem C5_count_discipline : ∀ (fuel : Nat) (b : SudokuBoard) (v : List SudokuBoard) (c : Nat),
    (c ≥ MAX_CALLS → solve_board (fuel + 1) b false v c = (none, false, v, c)) ∧
    (c < MAX_CALLS → pyIn v b = true → solve_board (fuel + 1) b false v c = (none, false, v, c)) ∧
    (c < MAX_CALLS → pyIn v b = false → ∀ e, b.analyze = .error e →
      solve_board (fuel + 1) b false v c = (none, false, v, c + 1)) ∧
    (c < MAX_CALLS → pyIn v b = false → ∀ b', b.analyze = .ok b' → b'.solved = true →
      solve_board (fuel + 1) b false v c = (some b', true, v, c + 1)) ∧
    (c < MAX_CALLS → pyIn v b = false → ∀ b', b.analyze = .ok b' → b'.solved = false →
      b'.next_moves = [] →
      solve_board (fuel + 1) b false v c = (none, false, addVisited b' v, c + 1)) ∧
    c ≤ (solve_board (fuel + 1) b false v c).2.2.2 := by
  intro fuel b v c
  refine ⟨?_, ?_, ?_, ?_, ?_, solve_mono (fuel + 1) b false v c⟩
  · intro h1
    simp [solve_board, h1]
  · intro h1 h2
    have hn : ¬ c ≥ MAX_CALLS := by omega
    simp [solve_board, hn, h2]
  · intro h1 h2 e he
    have hn : ¬ c ≥ MAX_CALLS := by omega
    simp [solve_board, hn, h2, he]
  · intro h1 h2 b' hb hsol
    have hn : ¬ c ≥ MAX_CALLS := by omega
    simp [solve_board, hn, h2, hb, hsol]
  · intro h1 h2 b' hb hsol hmoves
    have hn : ¬ c ≥ MAX_CALLS := by omega
    simp [solve_board, hn, h2, hb, hsol, hmoves, tryMoves]

/-- Witness for `C5_count_discipline`: the budget-exhausted conjunct at a
concrete entry. -/
theorem C5_count_discipline_witness :
    (100000 : Nat) ≥ MAX_CALLS ∧
      solve_board 1 fullBoard false [] 100000 = (none, false, [], 100000) :=
  ⟨by decide, (C5_count_discipline 0 fullBoard [] 100000).1 (by decide)⟩

/-- Claim C6 (corrected).  The solver does not surface the failure reason:
every failure — budget exhaustion included — is the same observable value, a
`None` board with a `false` flag (together with the threaded visited set and
count, which encode no reason).  Equivalently, the flag is `false` exactly
when the board is `None`. -/
theorem C6_failures_collapse : ∀ fuel b s visited count,
    (solve_board fuel b s visited count).2.1 = false ↔
      (solve_board fuel b s visited count).1 = none :=
  fun fuel b s visited count => (solve_shape fuel b s visited count).symm

/-- Claim C10 (confirmed).  Solver soundness: whenever `solve_board` is called
with the `solved` argument `False` (as the driver and every recursive call
pass it) and returns a board with the success flag `True`, that board
satisfies `solved()` — it is completely filled and `verify()` raises
nothing. -/
theorem C10_solver_soundness : ∀ fuel b visited count r visited' count',
    solve_board fuel b false visited count = (some r, true, visited', count') →
      r.solved = true := by
  intro fuel b visited count r visited' count' h
  exact solve_sound fuel b visited count r (by rw [h])

/-- Witness for `C10_solver_soundness`: solving the completed example board
succeeds in one call and the returned board is solved. -/
theorem C10_solver_soundness_witness : fullSolvedBoard.solved = true :=
  C10_solver_soundness 1 fullBoard [] 0 fullSolvedBoard [] 1 (by decide)

/-- Claim C7, counterexample.  In block 0 of `pairBoard` the candidate set
`[2,7]` (size 2) is the exact candidate set of exactly 2 empty cells, yet
after `set_possibles` the paired cell `(0,0)` holds `[2]`, not `[2,7]`: the
unit also contains the overlapping locked singleton `[7]`, whose elimination
strips 7 from the pair, so the claimed "paired cells' candidate sets
unchanged" fails. -/
theorem C7_counterexample :
    (((pairBoard.blocks.get? 0).getD freshBlock).cells.filter
        (fun c => c.number.isNone && decide (c.possibles = some [2, 7]))).length = 2 ∧
    ([2, 7] : List Nat).length = 2 ∧
    pairBoard.set_possibles.possAt 0 0 = some [2] ∧
    (some [2] : Option (List Nat)) ≠ some [2, 7] := by
  refine ⟨by decide, by decide, by decide, by decide⟩

/-- Claim C7 (corrected).  The naked-subset elimination of one unit, run on a
unit of nine cells, behaves as claimed *provided the locked group is unique*:
if the candidate list `p` of size `k` is the exact candidate list of exactly
`k` empty cells (so `(p, k)` is a group of the unit and `p.length = k`), and
no other group of the unit is locked, then the pass maps every cell through
"eliminate `p` unless the cell is filled or its candidates are exactly `p`" —
the `k` paired cells keep `p` unchanged and every other empty cell loses the
members of `p`.  Without the uniqueness proviso the claim fails (see the
counterexample, where an overlapping locked singleton strips the pair). -/
theorem C7_unique_locked_group (c0 c1 c2 c3 c4 c5 c6 c7 c8 : SudokuCell)
    (p : List Nat) (k : Nat)
    (hmem : (p, k) ∈ groupCounts [c0, c1, c2, c3, c4, c5, c6, c7, c8])
    (hlen : p.length = k)
    (huniq : ∀ g ∈ groupCounts [c0, c1, c2, c3, c4, c5, c6, c7, c8],
      g.1.length = g.2 → g.1 = p) :
    groupPassUnit ⟨[⟨[c0, c1, c2, c3, c4, c5, c6, c7, c8]⟩]⟩ (blockPositions 0) =
      ⟨[⟨[c0, c1, c2, c3, c4, c5, c6, c7, c8].map (fun c =>
          if c.number.isNone ∧ c.possibles ≠ some p then eliminateCell c p else c)⟩]⟩ := by
  obtain ⟨l1, l2, hsplit⟩ := List.append_of_mem hmem
  have hkeys := groupCounts_keys_nodup [c0, c1, c2, c3, c4, c5, c6, c7, c8]
  rw [hsplit, List.map_append, List.map_cons] at hkeys
  have hdisj := List.nodup_append.mp hkeys
  have hinl1 : ∀ g ∈ l1, g.1.length ≠ g.2 := by
    intro g hg hlock
    have hgp : g.1 = p := by
      refine huniq g ?_ hlock
      rw [hsplit]
      exact List.mem_append_left _ hg
    have hp1 : p ∈ l1.map Prod.fst := hgp ▸ List.mem_map_of_mem Prod.fst hg
    exact (hdisj.2.2 hp1) (List.mem_cons_self _ _)
  have hinl2 : ∀ g ∈ l2, g.1.length ≠ g.2 := by
    intro g hg hlock
    have hgp : g.1 = p := by
      refine huniq g ?_ hlock
      rw [hsplit]
      exact List.mem_append_right _ (List.mem_cons_of_mem _ hg)
    have hp2 : p ∈ l2.map Prod.fst := hgp ▸ List.mem_map_of_mem Prod.fst hg
    exact (List.nodup_cons.mp hdisj.2.1).1 hp2
  have hcells : ((blockPositions 0).map
      (fun q => (SudokuBoard.mk [⟨[c0, c1, c2, c3, c4, c5, c6, c7, c8]⟩]).cellAt q.1 q.2)) =
      [c0, c1, c2, c3, c4, c5, c6, c7, c8] := rfl
  rw [groupPassUnit, hcells, hsplit,
    foldl_locked_single _ l1 l2 (p, k) _ hinl1 hinl2 hlen]
  rfl

/-- Witness for `C7_unique_locked_group`: a block whose empty cells hold
`[2,7]`, `[2,7]`, `[1,2,3]`, `[1,3,9]` (locked pair `[2,7]`, no other locked
group): the pass keeps the pair and strips 2 from `[1,2,3]` and nothing from
`[1,3,9]`. -/
theorem C7_unique_locked_group_witness :
    groupPassUnit ⟨[⟨[narrowedCell [2, 7], filledCell 1, narrowedCell [2, 7],
        narrowedCell [1, 2, 3], narrowedCell [1, 3, 9], filledCell 4, filledCell 5,
        filledCell 6, filledCell 8]⟩]⟩ (blockPositions 0) =
      ⟨[⟨[narrowedCell [2, 7], filledCell 1, narrowedCell [2, 7],
          narrowedCell [1, 2, 3], narrowedCell [1, 3, 9], filledCell 4, filledCell 5,
          filledCell 6, filledCell 8].map (fun c =>
            if c.number.isNone ∧ c.possibles ≠ some [2, 7] then eliminateCell c [2, 7]
            else c)⟩]⟩ :=
  C7_unique_locked_group (narrowedCell [2, 7]) (filledCell 1) (narrowedCell [2, 7])
    (narrowedCell [1, 2, 3]) (narrowedCell [1, 3, 9]) (filledCell 4) (filledCell 5)
    (filledCell 6) (filledCell 8) [2, 7] 2 (by decide) (by decide) (by decide)

/-- Claim C8, counterexample.  Running `set_possibles` twice in succession on
`cascadeBoard` (no intervening state change) does not reproduce the first
run's candidate sets: the first pass's pair elimination reduces cell `(0,8)`
to the naked single `[9]`, which only the *second* pass's subset elimination
can exploit, shrinking cell `(0,1)` from `[1,9]` to `[1]`. -/
theorem C8_counterexample :
    cascadeBoard.set_possibles.possAt 0 1 = some [1, 9] ∧
    cascadeBoard.set_possibles.set_possibles.possAt 0 1 = some [1] ∧
    cascadeBoard.set_possibles.set_possibles ≠ cascadeBoard.set_possibles := by
  refine ⟨by decide, by decide, by decide⟩

/-- Claim C8 (corrected).  `set_possibles` is not idempotent (see the
counterexample), but a second run in succession never widens anything: every
cell's value is unchanged and its candidate list after the second run is a
sub-collection of the one after the first run (the pass is monotone — a
second run can only narrow further, e.g. by exploiting locked groups the
first run created). -/
theorem C8_second_pass_only_narrows : ∀ b : SudokuBoard,
    BoardShrink b.set_possibles.set_possibles b.set_possibles :=
  fun b => set_possibles_shrink b.set_possibles

/-- Witness for `C8_second_pass_only_narrows` at the counterexample board. -/
theorem C8_second_pass_only_narrows_witness :
    BoardShrink cascadeBoard.set_possibles.set_possibles cascadeBoard.set_possibles :=
  C8_second_pass_only_narrows cascadeBoard

/-- Claim C9, counterexample.  `SudokuBlock.populate` assigns a cell's number
without touching its `possibles`, so a cell freshly populated with the value 1
still holds the full initial candidate list — `candidates` is not `None` while
`value` is set, violating the claimed invariant. -/
theorem C9_counterexample :
    (freshBlock.populate [some 1]).cells.get? 0 = some ⟨some 1, some POSSIBLE_NUMBERS⟩ ∧
    (some POSSIBLE_NUMBERS : Option (List Nat)) ≠ none := by
  refine ⟨by decide, by decide⟩

/-- Claim C9 (corrected).  The claimed invariant — candidates absent exactly
when the value is set — is not established by construction or population (see
the counterexample), but it is established by every `reset_possibles` (empty
cells get the full list, filled cells get `None`) and preserved by
`set_obvious` (committing a value clears the candidates); a freshly
constructed cell is empty and carries the full initial candidate list. -/
theorem C9_invariant_from_reset_preserved_by_set_obvious :
    (freshCell.number = none ∧ freshCell.possibles = some POSSIBLE_NUMBERS) ∧
    (∀ (b : SudokuBoard) (bi ci : Nat), cellInvariant (b.reset_possibles.cellAt bi ci)) ∧
    (∀ b : SudokuBoard, (∀ bi ci, cellInvariant (b.cellAt bi ci)) →
      ∀ bi ci, cellInvariant ((b.set_obvious).1.cellAt bi ci)) := by
  refine ⟨⟨rfl, rfl⟩, ?_, ?_⟩
  · intro b bi ci
    show cellInvariant ((SudokuBoard.mk (b.blocks.map SudokuBlock.reset_possibles)).cellAt bi ci)
    have hb : b.blocks.map SudokuBlock.reset_possibles =
        b.blocks.map (fun blk => ⟨blk.cells.map (fun c =>
          if c.number.isNone then { c with possibles := some POSSIBLE_NUMBERS }
          else { c with possibles := none })⟩) := rfl
    rw [hb, cellAt_mapCells]
    cases hc : b.cellAt? bi ci with
    | none => simp [cellInvariant, freshCell]
    | some c =>
      simp only [Option.map_some', Option.getD_some]
      by_cases hn : c.number.isNone
      · have hnone : c.number = none := by cases h : c.number <;> simp [h] at hn ⊢
        simp [cellInvariant, hn, hnone]
      · have hsome : c.number ≠ none := by cases h : c.number <;> simp [h] at hn ⊢
        simp [cellInvariant, hn, hsome]
  · intro b h bi ci
    have hmk : (b.set_obvious).1 =
        SudokuBoard.mk (b.blocks.map (fun blk => ⟨blk.cells.map (fun c =>
          match c.number, c.possibles with
          | none, some [v] => { number := some v, possibles := none }
          | _, _ => c)⟩)) := rfl
    rw [hmk, cellAt_mapCells]
    cases hc : b.cellAt? bi ci with
    | none => simp [cellInvariant, freshCell]
    | some c =>
      have hcinv : cellInvariant c := by
        have := h bi ci
        rw [SudokuBoard.cellAt, hc] at this
        exact this
      simp only [Option.map_some', Option.getD_some]
      split
      · simp [cellInvariant]
      · exact hcinv

/-- Witness for `C9_invariant_from_reset_preserved_by_set_obvious`: the
invariant after resetting the completed example board and committing obvious
cells. -/
theorem C9_invariant_witness :
    cellInvariant ((fullBoard.reset_possibles.set_obvious).1.cellAt 0 0) :=
  C9_invariant_from_reset_preserved_by_set_obvious.2.2 fullBoard.reset_possibles
    (fun bi ci => C9_invariant_from_reset_preserved_by_set_obvious.2.1 fullBoard bi ci) 0 0

end Sudoku
